import Mathlib

/-
  Verification of the dbcore connection-management core (udbcore package):
  the retry-orchestrated execution engine (`ddb.py`, `_execute_with_retry`),
  the connection pool (`connection_pool.py`), the transaction coordinator
  (`transactions.py`), and the identity-key validation (`db.py`).

  The Python code is shallowly embedded: each method becomes a pure Lean
  function over an explicit state, with the outcomes of the surrounding
  effects (the database engine accepting or rejecting a statement, the
  current wall-clock time) passed in as parameters.  Timestamps and delays
  (Python floats produced by `time.time()` and `retry_delay`) are modelled
  as rationals.
-/

namespace Udbcore

/-! ## Retry-orchestrated execution engine (`ddb.py`, `_execute_with_retry`)

`_execute_with_retry` runs `execute_func(conn)` in a loop
`for attempt in range(self.retry_attempts)`.  On success it returns the
result immediately.  On an exception it stores it in `last_exception`,
disconnects, and — unless this was the final attempt — sleeps for
`self.retry_delay * (attempt + 1)`.  After the loop it raises
`last_exception` (which is `None` when `retry_attempts = 0`).

The embedding records the observable events of one call as a trace:
which attempts invoked the operation, each forced disconnect, and each
sleep with its duration.  The outcome of the `attempt`-th invocation of
`execute_func` is supplied by the environment as `f attempt`. -/

/-- One observable event of a `_execute_with_retry` run. -/
inductive RetryEvent where
  | invoke (attempt : Nat)
  | disconnect
  | sleep (duration : ℚ)
deriving DecidableEq

/-- Whether an `Except` value is the `error` case (a raised exception). -/
def isErr {E R : Type} : Except E R → Bool
  | .error _ => true
  | .ok _ => false

/-- The loop of `_execute_with_retry`, entered at iteration `attempt` with
`last_exception = lastExc`.  Returns the event trace of the remaining
iterations and the overall outcome: `.ok r` when some attempt succeeds,
`.error (some e)` when the attempts are exhausted with `e` the last
exception, `.error none` for the `raise None` of `retry_attempts = 0`. -/
def retryLoop {E R : Type} (f : Nat → Except E R) (retry_attempts : Nat)
    (retry_delay : ℚ) (attempt : Nat) (lastExc : Option E) :
    List RetryEvent × Except (Option E) R :=
  if attempt < retry_attempts then
    match f attempt with
    | .ok r => ([.invoke attempt], .ok r)
    | .error e =>
      let tail := retryLoop f retry_attempts retry_delay (attempt + 1) (some e)
      if attempt < retry_attempts - 1 then
        (.invoke attempt :: .disconnect ::
          .sleep (retry_delay * ((attempt : ℚ) + 1)) :: tail.1, tail.2)
      else
        (.invoke attempt :: .disconnect :: tail.1, tail.2)
  else
    ([], .error lastExc)
termination_by retry_attempts - attempt

/-- `_execute_with_retry` itself: the loop started at attempt 0 with
`last_exception = None`. -/
def execute_with_retry {E R : Type} (f : Nat → Except E R)
    (retry_attempts : Nat) (retry_delay : ℚ) :
    List RetryEvent × Except (Option E) R :=
  retryLoop f retry_attempts retry_delay 0 none

/-- Number of invocations of the operation recorded in a trace. -/
def countInvokes (tr : List RetryEvent) : Nat :=
  (tr.filter fun e => match e with | .invoke _ => true | _ => false).length

/-- The sleep durations recorded in a trace, in order. -/
def sleepsOf (tr : List RetryEvent) : List ℚ :=
  tr.filterMap fun e => match e with | .sleep d => some d | _ => none

/-- The per-failed-attempt event segment: invoke, forced disconnect, backoff
sleep of `retry_delay * (attempt + 1)`. -/
def failSeg (retry_delay : ℚ) (attempt : Nat) : List RetryEvent :=
  [.invoke attempt, .disconnect, .sleep (retry_delay * ((attempt : ℚ) + 1))]

/-! ## Connection pool (`connection_pool.py`, class `ConnectionPool`)

`self._pool` is a Python dict `path -> {'duckdb': ..., 'last_used': ...}`.
A Python dict iterates in insertion order, an in-place value update keeps
the key's position, and `del` followed by a later insertion re-appends at
the end; the embedding is therefore an insertion-ordered association list
with pairwise-distinct keys.  The identity of a `DuckDB` object is
modelled by a numeric id; fresh objects take the next id from a counter in
the state.  `time.time()` is passed in as the parameter `now`. -/

/-- One pool slot: the identity of the held `DuckDB` object and its
`last_used` timestamp. -/
structure PoolEntry where
  connId : Nat
  lastUsed : ℚ
deriving DecidableEq

/-- The `ConnectionPool` state. -/
structure ConnectionPool where
  maxConnections : Nat
  connectionTimeout : ℚ
  pool : List (String × PoolEntry)
  running : Bool
  nextConnId : Nat
deriving DecidableEq

/-- `path in self._pool` / `self._pool[path]`: first (only) entry with the
given key. -/
def lookupPath (pool : List (String × PoolEntry)) (path : String) :
    Option PoolEntry :=
  match pool with
  | [] => none
  | q :: rest => if q.1 = path then some q.2 else lookupPath rest path

/-- `self._pool[path]['last_used'] = now`: in-place update keeps the
entry's position in iteration order. -/
def touchPath (pool : List (String × PoolEntry)) (path : String) (now : ℚ) :
    List (String × PoolEntry) :=
  pool.map fun q => if q.1 = path then (q.1, { q.2 with lastUsed := now }) else q

/-- `del self._pool[path]`. -/
def removePath (pool : List (String × PoolEntry)) (path : String) :
    List (String × PoolEntry) :=
  pool.filter fun q => decide (q.1 ≠ path)

/-- Helper of `minBy`: fold keeping the entry with the strictly smaller
`last_used`, so the earliest entry wins ties, as Python's `min` does. -/
def minByAux (best : String × PoolEntry) :
    List (String × PoolEntry) → String × PoolEntry
  | [] => best
  | q :: rest => minByAux (if q.2.lastUsed < best.2.lastUsed then q else best) rest

/-- `min(self._pool.keys(), key=lambda p: self._pool[p]['last_used'])`,
paired with the entry it selects; `none` on the empty pool (Python's `min`
raises `ValueError` there). -/
def minBy (pool : List (String × PoolEntry)) : Option (String × PoolEntry) :=
  match pool with
  | [] => none
  | q :: rest => some (minByAux q rest)

/-- Result of `get_connection`: the identity of the returned `DuckDB`
object, the identities disconnected during the call, and the new state. -/
structure GetResult where
  conn : Nat
  closed : List Nat
  state : ConnectionPool
deriving DecidableEq

/-- `ConnectionPool.get_connection`.  `none` models the `ValueError` that
Python's `min` raises when the pool is simultaneously empty and at
capacity (only possible when `max_connections = 0`). -/
def get_connection (p : ConnectionPool) (path : String) (now : ℚ) :
    Option GetResult :=
  match lookupPath p.pool path with
  | some entry =>
    some { conn := entry.connId, closed := [],
           state := { p with pool := touchPath p.pool path now } }
  | none =>
    if p.pool.length < p.maxConnections then
      some { conn := p.nextConnId, closed := [],
             state := { p with
               pool := p.pool ++ [(path, ⟨p.nextConnId, now⟩)],
               nextConnId := p.nextConnId + 1 } }
    else
      match minBy p.pool with
      | none => none
      | some lru =>
        some { conn := p.nextConnId, closed := [lru.2.connId],
               state := { p with
                 pool := removePath p.pool lru.1 ++ [(path, ⟨p.nextConnId, now⟩)],
                 nextConnId := p.nextConnId + 1 } }

/-- `ConnectionPool.return_connection`: refresh `last_used` if the key is
present, otherwise do nothing. -/
def return_connection (p : ConnectionPool) (path : String) (now : ℚ) :
    ConnectionPool :=
  if (lookupPath p.pool path).isSome then
    { p with pool := touchPath p.pool path now }
  else p

/-- `ConnectionPool.close_connection`: disconnect and remove the entry if
present (close errors are swallowed), otherwise do nothing. -/
def close_connection (p : ConnectionPool) (path : String) : ConnectionPool :=
  if (lookupPath p.pool path).isSome then
    { p with pool := removePath p.pool path }
  else p

/-- `ConnectionPool.close_all`: stop the reaper, disconnect every entry,
clear the map. -/
def close_all (p : ConnectionPool) : ConnectionPool :=
  { p with pool := [], running := false }

/-- One pass of the reaper body in `_cleanup_idle_connections`: remove
every entry whose idle time exceeds `connection_timeout` (close errors are
swallowed; a dead connection is still removed). -/
def cleanup_pass (p : ConnectionPool) (now : ℚ) : ConnectionPool :=
  { p with pool := p.pool.filter fun q =>
      decide (¬ now - q.2.lastUsed > p.connectionTimeout) }

/-- The pool invariant of the data model: at most one entry per path key,
and the pool never exceeds `max_connections` entries. -/
def PoolInv (p : ConnectionPool) : Prop :=
  (p.pool.map Prod.fst).Nodup ∧ p.pool.length ≤ p.maxConnections

/-! ## Transaction coordinator (`transactions.py`, class `TransactionManager`)

The coordinator state is the flag `in_transaction`.  Issuing a SQL
statement on the held connection may succeed or raise; the environment
passes that outcome as an `Except E Unit`.  Each operation returns its
result (`TxnError` distinguishes the coordinator's own `RuntimeError`s
from engine errors, whose identity is preserved), the new state, and the
list of control statements it issued (attempted) on the connection. -/

/-- `self.in_transaction`. -/
structure TxnManager where
  in_transaction : Bool
deriving DecidableEq

/-- An exception escaping a coordinator method: either one of the
coordinator's own `RuntimeError`s, or an engine error passed through. -/
inductive TxnError (E : Type) where
  | runtimeError (msg : String)
  | engine (e : E)
deriving DecidableEq

/-- Outcome of one coordinator method call. -/
structure TxnOutcome (α : Type) (E : Type) where
  result : Except (TxnError E) α
  state : TxnManager
  issued : List String

/-- `TransactionManager.begin_transaction`.  `ex` is the outcome of
`conn.execute("BEGIN TRANSACTION;")`. -/
def begin_transaction {E : Type} (s : TxnManager) (ex : Except E Unit) :
    TxnOutcome Unit E :=
  if s.in_transaction then
    { result := .error (.runtimeError "Transaction already in progress"),
      state := s, issued := [] }
  else
    match ex with
    | .ok _ => { result := .ok (), state := ⟨true⟩,
                 issued := ["BEGIN TRANSACTION;"] }
    | .error e => { result := .error (.engine e), state := s,
                    issued := ["BEGIN TRANSACTION;"] }

/-- `TransactionManager.commit`.  `ex` is the outcome of
`conn.execute("COMMIT;")`; note that on an engine error the assignment
`self.in_transaction = False` is never reached. -/
def commit {E : Type} (s : TxnManager) (ex : Except E Unit) :
    TxnOutcome Unit E :=
  if s.in_transaction then
    match ex with
    | .ok _ => { result := .ok (), state := ⟨false⟩, issued := ["COMMIT;"] }
    | .error e => { result := .error (.engine e), state := s,
                    issued := ["COMMIT;"] }
  else
    { result := .error (.runtimeError "No transaction in progress"),
      state := s, issued := [] }

/-- `TransactionManager.rollback`.  When idle: warn and return.  When
active: issue `ROLLBACK;`; on an engine error the `except` clause still
resets `self.in_transaction = False` and swallows the exception. -/
def rollback {E : Type} (s : TxnManager) (ex : Except E Unit) :
    TxnOutcome Unit E :=
  if s.in_transaction then
    match ex with
    | .ok _ => { result := .ok (), state := ⟨false⟩, issued := ["ROLLBACK;"] }
    | .error _ => { result := .ok (), state := ⟨false⟩, issued := ["ROLLBACK;"] }
  else
    { result := .ok (), state := s, issued := [] }

/-- The `for query in queries` loop of `execute_in_transaction`: run the
statements in order from position `i`, accumulating `fetchall()` results,
stopping at the first raised exception.  `stmt j` is the outcome of the
`j`-th executed statement. -/
def runStatements {E R : Type} (stmt : Nat → Except E R) :
    List String → Nat → Except E (List R)
  | [], _ => .ok []
  | _ :: rest, i =>
    match stmt i with
    | .error e => .error e
    | .ok r =>
      match runStatements stmt rest (i + 1) with
      | .error e => .error e
      | .ok rs => .ok (r :: rs)

/-- `TransactionManager.execute_in_transaction`: begin (outside the `try`,
so a begin failure propagates without rollback), run the statements, then
commit inside the `try`; any exception in the `try` triggers a rollback
and is re-raised. -/
def execute_in_transaction {E R : Type} (s : TxnManager) (queries : List String)
    (beginEx commitEx rollbackEx : Except E Unit)
    (stmt : Nat → Except E R) : TxnOutcome (List R) E :=
  let b := begin_transaction s beginEx
  match b.result with
  | .error e => { result := .error e, state := b.state, issued := b.issued }
  | .ok _ =>
    match runStatements stmt queries 0 with
    | .ok results =>
      let c := commit b.state commitEx
      match c.result with
      | .ok _ => { result := .ok results, state := c.state,
                   issued := b.issued ++ c.issued }
      | .error e =>
        let rb := rollback c.state rollbackEx
        { result := .error e, state := rb.state,
          issued := b.issued ++ c.issued ++ rb.issued }
    | .error e =>
      let rb := rollback b.state rollbackEx
      { result := .error (.engine e), state := rb.state,
        issued := b.issued ++ rb.issued }

/-! ## Identity-key validation (`db.py`, `DB.acceptable_name`;
`ddb.py`, `DuckDB.__init__`)

A Python `str` is a sequence of code points; the embedding works on
`String.data`, the Lean string's code-point list.  `len(s)` is the number
of code points, `c in s` is membership of the single character, `s.lower()`
maps each character to lower case, and `s.endswith(t)` is the suffix
test. -/

/-- Python `len(s)`. -/
def pyLen (s : String) : Nat :=
  s.data.length

/-- Python `c in s` for a one-character needle. -/
def pyContains (s : String) (c : Char) : Bool :=
  s.data.contains c

/-- Python `s.lower()` (character-wise lowering; adequate for the ASCII
names and paths involved). -/
def pyLower (s : String) : String :=
  ⟨s.data.map Char.toLower⟩

/-- Python `s.endswith(suffix)`. -/
def pyEndsWith (s suffix : String) : Bool :=
  suffix.data.isSuffixOf s.data

/-- `DB.acceptable_name`: raises `ValueError` (modelled as `.error` with
the message) on the first violated rule, returns `True` otherwise. -/
def acceptable_name (name : String) : Except String Bool :=
  if pyLen name = 0 then .error "Name is empty."
  else if pyLen name > 20 then .error "Name is longer than 20 characters."
  else if pyContains name ' ' then .error "Name contains spaces."
  else if pyContains name '/' || pyContains name '\\' then
    .error "Name contains slashes or backslashes."
  else if ¬ pyEndsWith (pyLower name) ".duckdb" then
    .error "Name must have a .duckdb extension."
  else .ok true

/-- `DuckDB.__init__` up to its validation: the path-extension check, then
`DB.__init__`, which calls `acceptable_name` when `enforce_name` is set.
Returns the `ValueError` message raised, or `none` when construction
succeeds.  No connection is involved: `connect` is a separate method and
`__init__` performs no I/O. -/
def duckdb_init_error (path name : String) (enforce_name : Bool) :
    Option String :=
  if ¬ pyEndsWith (pyLower path) ".duckdb" then
    some "Database file must have a .duckdb extension."
  else if enforce_name then
    match acceptable_name name with
    | .error msg => some msg
    | .ok _ => none
  else none

/-! ## Lemmas about the retry engine -/

/-- The concatenation of the per-failed-attempt segments for attempts
`s, s+1, ..., s+a-1`. -/
def segsFrom (d : ℚ) : Nat → Nat → List RetryEvent
  | _, 0 => []
  | s, a + 1 => failSeg d s ++ segsFrom d (s + 1) a

theorem retryLoop_stop {E R : Type} (f : Nat → Except E R) (N : Nat) (d : ℚ)
    (a : Nat) (lastE : Option E) (h : ¬ a < N) :
    retryLoop f N d a lastE = ([], .error lastE) := by
  rw [retryLoop]
  simp [h]

theorem retryLoop_ok {E R : Type} (f : Nat → Except E R) (N : Nat) (d : ℚ)
    (a : Nat) (lastE : Option E) (r : R) (ha : a < N) (hf : f a = .ok r) :
    retryLoop f N d a lastE = ([.invoke a], .ok r) := by
  rw [retryLoop]
  simp [ha, hf]

theorem retryLoop_err_mid {E R : Type} (f : Nat → Except E R) (N : Nat) (d : ℚ)
    (a : Nat) (lastE : Option E) (e : E) (ha : a < N - 1) (hf : f a = .error e) :
    retryLoop f N d a lastE =
      (failSeg d a ++ (retryLoop f N d (a + 1) (some e)).1,
       (retryLoop f N d (a + 1) (some e)).2) := by
  have ha' : a < N := by omega
  rw [retryLoop]
  simp [ha', hf, ha, failSeg]

theorem retryLoop_err_last {E R : Type} (f : Nat → Except E R) (N : Nat) (d : ℚ)
    (a : Nat) (lastE : Option E) (e : E) (ha : a < N) (ha2 : ¬ a < N - 1)
    (hf : f a = .error e) :
    retryLoop f N d a lastE = ([.invoke a, .disconnect], .error (some e)) := by
  have hstop : ¬ a + 1 < N := by omega
  rw [retryLoop]
  simp [ha, hf, ha2, retryLoop_stop f N d (a + 1) (some e) hstop]

theorem retryLoop_fst_congr {E R : Type} (f : Nat → Except E R) (N : Nat)
    (d : ℚ) (a : Nat) (lastE lastE' : Option E) :
    (retryLoop f N d a lastE).1 = (retryLoop f N d a lastE').1 := by
  by_cases ha : a < N
  · cases hf : f a with
    | ok r =>
      rw [retryLoop_ok f N d a lastE r ha hf, retryLoop_ok f N d a lastE' r ha hf]
    | error e =>
      by_cases h2 : a < N - 1
      · rw [retryLoop_err_mid f N d a lastE e h2 hf,
            retryLoop_err_mid f N d a lastE' e h2 hf]
      · rw [retryLoop_err_last f N d a lastE e ha h2 hf,
            retryLoop_err_last f N d a lastE' e ha h2 hf]
  · rw [retryLoop_stop f N d a lastE ha, retryLoop_stop f N d a lastE' ha]

theorem isErr_error_exists {E R : Type} {x : Except E R} (h : isErr x = true) :
    ∃ e, x = .error e := by
  cases x with
  | ok r => simp [isErr] at h
  | error e => exact ⟨e, rfl⟩

theorem retryLoop_shift {E R : Type} (f : Nat → Except E R) (N : Nat) (d : ℚ) :
    ∀ (a s : Nat) (lastE lastE' : Option E),
      (∀ i, s ≤ i → i < s + a → isErr (f i) = true) → s + a ≤ N - 1 →
      (retryLoop f N d s lastE).1 =
        segsFrom d s a ++ (retryLoop f N d (s + a) lastE').1 := by
  intro a
  induction a with
  | zero =>
    intro s lastE lastE' _ _
    simpa [segsFrom] using retryLoop_fst_congr f N d s lastE lastE'
  | succ a ih =>
    intro s lastE lastE' hfail hle
    have hs : s < N - 1 := by omega
    obtain ⟨e, he⟩ := isErr_error_exists (hfail s (Nat.le_refl s) (by omega))
    rw [retryLoop_err_mid f N d s lastE e hs he]
    have htail := ih (s + 1) (some e) lastE'
      (fun i h1 h2 => hfail i (by omega) (by omega)) (by omega)
    have hrw : s + 1 + a = s + (a + 1) := by omega
    rw [hrw] at htail
    simp only [segsFrom, List.append_assoc]
    rw [htail]

theorem retryLoop_head {E R : Type} (f : Nat → Except E R) (N : Nat) (d : ℚ)
    (a : Nat) (lastE : Option E) (ha : a < N) :
    ∃ t, (retryLoop f N d a lastE).1 = .invoke a :: t := by
  cases hf : f a with
  | ok r => exact ⟨[], by rw [retryLoop_ok f N d a lastE r ha hf]⟩
  | error e =>
    by_cases h2 : a < N - 1
    · exact ⟨_, by rw [retryLoop_err_mid f N d a lastE e h2 hf]; rfl⟩
    · exact ⟨_, by rw [retryLoop_err_last f N d a lastE e ha h2 hf]⟩

theorem retryLoop_snd_fail {E R : Type} (f : Nat → Except E R) (N : Nat)
    (d : ℚ) :
    ∀ (k a : Nat) (lastE : Option E), a + k = N →
      (∀ i, a ≤ i → i < N → isErr (f i) = true) → a < N →
      ∀ e, f (N - 1) = .error e →
      (retryLoop f N d a lastE).2 = .error (some e) := by
  intro k
  induction k with
  | zero => intro a lastE hk _ ha _ _; omega
  | succ k ih =>
    intro a lastE hk hfail ha e he
    obtain ⟨e', he'⟩ := isErr_error_exists (hfail a (Nat.le_refl a) ha)
    by_cases h2 : a < N - 1
    · rw [retryLoop_err_mid f N d a lastE e' h2 he']
      exact ih (a + 1) (some e') (by omega)
        (fun i h1 h2 => hfail i (by omega) h2) (by omega) e he
    · have haN : a = N - 1 := by omega
      rw [retryLoop_err_last f N d a lastE e' ha h2 he']
      have : Except.error (α := R) e' = Except.error e := by
        rw [← he', haN, he]
      simp only [Except.error.injEq] at this
      rw [this]

theorem countInvokes_append (l1 l2 : List RetryEvent) :
    countInvokes (l1 ++ l2) = countInvokes l1 + countInvokes l2 := by
  simp [countInvokes, List.filter_append]

theorem countInvokes_failSeg (d : ℚ) (a : Nat) :
    countInvokes (failSeg d a) = 1 := by
  simp [countInvokes, failSeg]

theorem countInvokes_segsFrom (d : ℚ) :
    ∀ (a s : Nat), countInvokes (segsFrom d s a) = a := by
  intro a
  induction a with
  | zero => intro s; simp [segsFrom, countInvokes]
  | succ a ih =>
    intro s
    simp [segsFrom, countInvokes_append, countInvokes_failSeg, ih (s + 1)]
    omega

theorem sleepsOf_append (l1 l2 : List RetryEvent) :
    sleepsOf (l1 ++ l2) = sleepsOf l1 ++ sleepsOf l2 := by
  simp [sleepsOf]

theorem sleepsOf_segsFrom (d : ℚ) :
    ∀ (a s : Nat), sleepsOf (segsFrom d s a) =
      (List.range' s a).map (fun i => d * ((i : ℚ) + 1)) := by
  intro a
  induction a with
  | zero => intro s; simp [segsFrom, sleepsOf]
  | succ a ih =>
    intro s
    have hr : List.range' s (a + 1) = s :: List.range' (s + 1) a := List.range'_succ s a 1
    rw [hr]
    simp only [segsFrom, sleepsOf_append, List.map_cons]
    rw [ih (s + 1)]
    rfl

theorem segsFrom_length (d : ℚ) :
    ∀ (a s : Nat), (segsFrom d s a).length = 3 * a := by
  intro a
  induction a with
  | zero => intro s; simp [segsFrom]
  | succ a ih =>
    intro s
    simp only [segsFrom, List.length_append, ih (s + 1), failSeg]
    simp
    omega

theorem take_append_len {α : Type} (l1 l2 : List α) (n : Nat) :
    (l1 ++ l2).take (l1.length + n) = l1 ++ l2.take n := by
  induction l1 with
  | nil => simp
  | cons a t ih => simpa [Nat.succ_add] using ih

theorem retryLoop_fail_then_ok {E R : Type} (f : Nat → Except E R) (N : Nat)
    (d : ℚ) :
    ∀ (a s : Nat) (lastE : Option E) (r : R),
      (∀ i, s ≤ i → i < s + a → isErr (f i) = true) → s + a < N →
      f (s + a) = .ok r →
      (retryLoop f N d s lastE).2 = .ok r ∧
      countInvokes (retryLoop f N d s lastE).1 = a + 1 := by
  intro a
  induction a with
  | zero =>
    intro s lastE r _ hlt hok
    rw [retryLoop_ok f N d s lastE r (by omega) (by simpa using hok)]
    simp [countInvokes]
  | succ a ih =>
    intro s lastE r hfail hlt hok
    have hs : s < N - 1 := by omega
    obtain ⟨e, he⟩ := isErr_error_exists (hfail s (Nat.le_refl s) (by omega))
    rw [retryLoop_err_mid f N d s lastE e hs he]
    have := ih (s + 1) (some e) r (fun i h1 h2 => hfail i (by omega) (by omega))
      (by omega) (by rw [show s + 1 + a = s + (a + 1) by omega]; exact hok)
    refine ⟨this.1, ?_⟩
    simp only [countInvokes_append, countInvokes_failSeg, this.2]
    omega

theorem execute_fail_front {E R : Type} (f : Nat → Except E R) (N : Nat)
    (d : ℚ) (a : Nat) (ha : a < N) (h : ∀ i, i < a → isErr (f i) = true) :
    (execute_with_retry f N d).1 =
      segsFrom d 0 a ++ (retryLoop f N d a none).1 := by
  have := retryLoop_shift f N d a 0 none none
    (fun i h1 h2 => h i (by omega)) (by omega)
  simpa using this

theorem execute_all_fail_trace {E R : Type} (f : Nat → Except E R) (N : Nat)
    (d : ℚ) (hN : 1 ≤ N) (h : ∀ i, i < N → isErr (f i) = true) :
    (execute_with_retry f N d).1 =
      segsFrom d 0 (N - 1) ++ [.invoke (N - 1), .disconnect] := by
  rw [execute_fail_front f N d (N - 1) (by omega) (fun i hi => h i (by omega))]
  obtain ⟨e, he⟩ := isErr_error_exists (h (N - 1) (by omega))
  rw [retryLoop_err_last f N d (N - 1) none e (by omega) (by omega) he]

/-- Claim C1: with `retry_attempts = N ≥ 1`, an operation failing on every
invocation is invoked exactly `N` times and the last underlying exception
itself is raised, unwrapped; an operation failing on the first `k < N`
invocations and succeeding on the next returns that result and is invoked
exactly `k + 1` times. -/
theorem retry_ceiling_c1 {E R : Type} (f : Nat → Except E R) (N : Nat)
    (d : ℚ) (hN : 1 ≤ N) :
    ((∀ i, i < N → isErr (f i) = true) →
      countInvokes (execute_with_retry f N d).1 = N ∧
      ∀ e, f (N - 1) = .error e →
        (execute_with_retry f N d).2 = .error (some e)) ∧
    (∀ k r, k < N → (∀ i, i < k → isErr (f i) = true) → f k = .ok r →
      (execute_with_retry f N d).2 = .ok r ∧
      countInvokes (execute_with_retry f N d).1 = k + 1) := by
  constructor
  · intro h
    constructor
    · rw [execute_all_fail_trace f N d hN h, countInvokes_append,
          countInvokes_segsFrom]
      simp [countInvokes]
      omega
    · intro e he
      exact retryLoop_snd_fail f N d N 0 none (by omega)
        (fun i _ h2 => h i h2) (by omega) e he
  · intro k r hk hfail hok
    exact retryLoop_fail_then_ok f N d k 0 none r
      (fun i _ h2 => hfail i (by omega)) (by omega) (by simpa using hok)

/-- Witness for C1 at a concrete input: three attempts, always failing,
and three attempts with one failure then success. -/
theorem retry_ceiling_c1_witness :
    (countInvokes (execute_with_retry (fun _ => (.error 7 : Except Nat Nat)) 3 1).1 = 3 ∧
      (execute_with_retry (fun _ => (.error 7 : Except Nat Nat)) 3 1).2 = .error (some 7)) ∧
    ((execute_with_retry (fun i => if i = 0 then (.error 7 : Except Nat Nat) else .ok 5) 3 1).2 = .ok 5 ∧
      countInvokes (execute_with_retry (fun i => if i = 0 then (.error 7 : Except Nat Nat) else .ok 5) 3 1).1 = 2) := by
  have h1 := retry_ceiling_c1 (fun _ => (.error 7 : Except Nat Nat)) 3 1 (by decide)
  have h2 := retry_ceiling_c1 (fun i => if i = 0 then (.error 7 : Except Nat Nat) else .ok 5) 3 1 (by decide)
  refine ⟨⟨(h1.1 ?_).1, (h1.1 ?_).2 7 rfl⟩, h2.2 1 5 (by decide) ?_ rfl⟩
  · intro i _; rfl
  · intro i _; rfl
  · intro i hi
    have hi0 : i = 0 := by omega
    subst hi0
    rfl

/-- Claim C6: while attempts keep failing, each failed non-final attempt
`a` (1-based, `a < N`) is followed by a forced disconnect and a sleep of
exactly `retry_delay * a` before the next attempt's invocation; when all
attempts fail there are exactly `N - 1` sleeps of durations
`retry_delay * 1, ..., retry_delay * (N - 1)` — none after the final
attempt. -/
theorem backoff_c6 {E R : Type} (f : Nat → Except E R) (N : Nat) (d : ℚ) :
    (∀ a, 1 ≤ a → a < N → (∀ i, i < a → isErr (f i) = true) →
      (execute_with_retry f N d).1.take (3 * a + 1) =
        segsFrom d 0 a ++ [.invoke a] ∧
      sleepsOf (segsFrom d 0 a) =
        (List.range' 0 a).map (fun i => d * ((i : ℚ) + 1))) ∧
    (1 ≤ N → (∀ i, i < N → isErr (f i) = true) →
      (execute_with_retry f N d).1 =
        segsFrom d 0 (N - 1) ++ [.invoke (N - 1), .disconnect] ∧
      sleepsOf (execute_with_retry f N d).1 =
        (List.range' 0 (N - 1)).map (fun i => d * ((i : ℚ) + 1))) := by
  constructor
  · intro a _ ha hfail
    refine ⟨?_, sleepsOf_segsFrom d a 0⟩
    rw [execute_fail_front f N d a ha hfail]
    have hlen : 3 * a + 1 = (segsFrom d 0 a).length + 1 := by
      rw [segsFrom_length]
    rw [hlen, take_append_len]
    obtain ⟨t, ht⟩ := retryLoop_head f N d a none ha
    rw [ht]
    rfl
  · intro hN h
    have htr := execute_all_fail_trace f N d hN h
    refine ⟨htr, ?_⟩
    rw [htr, sleepsOf_append, sleepsOf_segsFrom]
    simp [sleepsOf]

/-- Witness for C6 at a concrete input: three always-failing attempts with
`retry_delay = 2`. -/
theorem backoff_c6_witness :
    ((execute_with_retry (fun _ => (.error 0 : Except Nat Nat)) 3 2).1.take 4 =
      segsFrom 2 0 1 ++ [.invoke 1] ∧
     sleepsOf (segsFrom 2 0 1) =
      (List.range' 0 1).map (fun i => (2 : ℚ) * ((i : ℚ) + 1))) ∧
    ((execute_with_retry (fun _ => (.error 0 : Except Nat Nat)) 3 2).1 =
      segsFrom 2 0 2 ++ [.invoke 2, .disconnect] ∧
     sleepsOf (execute_with_retry (fun _ => (.error 0 : Except Nat Nat)) 3 2).1 =
      (List.range' 0 2).map (fun i => (2 : ℚ) * ((i : ℚ) + 1))) := by
  have h := backoff_c6 (fun _ => (.error 0 : Except Nat Nat)) 3 2
  exact ⟨h.1 1 (by decide) (by decide) (fun i _ => rfl),
         h.2 (by decide) (fun i _ => rfl)⟩

/-! ## Lemmas about the connection pool -/

theorem lookupPath_none_iff (pool : List (String × PoolEntry)) (path : String) :
    lookupPath pool path = none ↔ path ∉ pool.map Prod.fst := by
  induction pool with
  | nil => simp [lookupPath]
  | cons q rest ih =>
    by_cases h : q.1 = path
    · simp [lookupPath, h]
    · simp [lookupPath, h, ih, Ne.symm h]

theorem lookupPath_some_mem (pool : List (String × PoolEntry)) (path : String)
    (entry : PoolEntry) (h : lookupPath pool path = some entry) :
    (path, entry) ∈ pool := by
  induction pool with
  | nil => simp [lookupPath] at h
  | cons q rest ih =>
    by_cases hq : q.1 = path
    · simp [lookupPath, hq] at h
      subst hq
      subst h
      simp
    · simp [lookupPath, hq] at h
      exact List.mem_cons_of_mem q (ih h)

theorem touchPath_keys (pool : List (String × PoolEntry)) (path : String)
    (now : ℚ) : (touchPath pool path now).map Prod.fst = pool.map Prod.fst := by
  simp only [touchPath, List.map_map]
  congr 1
  funext q
  by_cases h : q.1 = path <;> simp [h]

theorem touchPath_length (pool : List (String × PoolEntry)) (path : String)
    (now : ℚ) : (touchPath pool path now).length = pool.length := by
  simp [touchPath]

theorem touchPath_mem_self (pool : List (String × PoolEntry)) (path : String)
    (now : ℚ) (e : PoolEntry) (h : (path, e) ∈ pool) :
    (path, (⟨e.connId, now⟩ : PoolEntry)) ∈ touchPath pool path now := by
  have := List.mem_map_of_mem
    (fun q : String × PoolEntry =>
      if q.1 = path then (q.1, { q.2 with lastUsed := now }) else q) h
  simpa [touchPath] using this

theorem touchPath_mem_other (pool : List (String × PoolEntry)) (path : String)
    (now : ℚ) (q : String × PoolEntry) (h : q ∈ pool) (hne : q.1 ≠ path) :
    q ∈ touchPath pool path now := by
  have := List.mem_map_of_mem
    (fun q : String × PoolEntry =>
      if q.1 = path then (q.1, { q.2 with lastUsed := now }) else q) h
  simpa [touchPath, hne] using this

theorem removePath_sublist (pool : List (String × PoolEntry)) (path : String) :
    (removePath pool path).Sublist pool :=
  List.filter_sublist pool

theorem removePath_mem (pool : List (String × PoolEntry)) (path : String)
    (q : String × PoolEntry) (h : q ∈ pool) (hne : q.1 ≠ path) :
    q ∈ removePath pool path := by
  simp [removePath, List.mem_filter, h, hne]

theorem removePath_of_not_mem (pool : List (String × PoolEntry)) (path : String)
    (h : path ∉ pool.map Prod.fst) : removePath pool path = pool := by
  induction pool with
  | nil => rfl
  | cons q rest ih =>
    simp only [List.map_cons, List.mem_cons, not_or] at h
    have hq : q.1 ≠ path := fun hc => h.1 hc.symm
    have h1 : removePath (q :: rest) path = q :: removePath rest path := by
      simp [removePath, List.filter_cons, hq]
    rw [h1, ih h.2]

theorem removePath_length (pool : List (String × PoolEntry)) (path : String)
    (e : PoolEntry) (hnd : (pool.map Prod.fst).Nodup) (h : (path, e) ∈ pool) :
    (removePath pool path).length + 1 = pool.length := by
  induction pool with
  | nil => simp at h
  | cons q rest ih =>
    simp only [List.map_cons, List.nodup_cons] at hnd
    rcases List.mem_cons.mp h with heq | hmem
    · have hq : q.1 = path := by rw [← heq]
      have hnot : path ∉ rest.map Prod.fst := by rw [← hq]; exact hnd.1
      have h1 : removePath (q :: rest) path = removePath rest path := by
        simp [removePath, List.filter_cons, hq]
      rw [h1, removePath_of_not_mem rest path hnot]
      simp
    · have hq : q.1 ≠ path := by
        intro hcon
        exact hnd.1 (hcon ▸ List.mem_map_of_mem Prod.fst hmem)
      have h1 : removePath (q :: rest) path = q :: removePath rest path := by
        simp [removePath, List.filter_cons, hq]
      rw [h1]
      simp only [List.length_cons]
      have := ih hnd.2 hmem
      omega

theorem minByAux_mem (b : String × PoolEntry) (l : List (String × PoolEntry)) :
    minByAux b l ∈ b :: l := by
  induction l generalizing b with
  | nil => simp [minByAux]
  | cons q rest ih =>
    by_cases h : q.2.lastUsed < b.2.lastUsed
    · simp only [minByAux, if_pos h]
      exact List.mem_cons_of_mem b (ih q)
    · simp only [minByAux, if_neg h]
      rcases List.mem_cons.mp (ih b) with h1 | h1
      · rw [h1]; exact List.mem_cons_self b _
      · exact List.mem_cons_of_mem b (List.mem_cons_of_mem q h1)

theorem minByAux_le (b : String × PoolEntry) (l : List (String × PoolEntry)) :
    (minByAux b l).2.lastUsed ≤ b.2.lastUsed ∧
    ∀ q ∈ l, (minByAux b l).2.lastUsed ≤ q.2.lastUsed := by
  induction l generalizing b with
  | nil => simp [minByAux]
  | cons q rest ih =>
    by_cases h : q.2.lastUsed < b.2.lastUsed
    · have hq := ih q
      constructor
      · calc (minByAux b (q :: rest)).2.lastUsed
            = (minByAux q rest).2.lastUsed := by simp [minByAux, h]
          _ ≤ q.2.lastUsed := hq.1
          _ ≤ b.2.lastUsed := le_of_lt h
      · intro q' hq'
        rcases List.mem_cons.mp hq' with h1 | h1
        · subst h1; simpa [minByAux, h] using hq.1
        · simpa [minByAux, h] using hq.2 q' h1
    · have hb := ih b
      constructor
      · simpa [minByAux, h] using hb.1
      · intro q' hq'
        rcases List.mem_cons.mp hq' with h1 | h1
        · subst h1
          calc (minByAux b (q' :: rest)).2.lastUsed
              = (minByAux b rest).2.lastUsed := by simp [minByAux, h]
            _ ≤ b.2.lastUsed := hb.1
            _ ≤ q'.2.lastUsed := le_of_not_lt h
        · simpa [minByAux, h] using hb.2 q' h1

theorem minBy_spec (pool : List (String × PoolEntry)) (h : pool ≠ []) :
    ∃ lru, minBy pool = some lru ∧ lru ∈ pool ∧
      ∀ q ∈ pool, lru.2.lastUsed ≤ q.2.lastUsed := by
  match pool with
  | [] => exact absurd rfl h
  | q :: rest =>
    refine ⟨minByAux q rest, rfl, minByAux_mem q rest, ?_⟩
    intro q' hq'
    rcases List.mem_cons.mp hq' with h1 | h1
    · subst h1; exact (minByAux_le q' rest).1
    · exact (minByAux_le q rest).2 q' h1

/-- Claim C2: `get_connection` with the path already pooled refreshes
that entry's `last_used` to the current time, leaves every other entry
untouched, and returns the identical existing connection object; with the
path absent and the pool below capacity it appends a freshly opened
connection and returns it; with the path absent and the pool at capacity
it disconnects and removes exactly an entry of minimal `last_used`, then
appends and returns the fresh connection. -/
theorem pool_get_c2 (p : ConnectionPool) (path : String) (now : ℚ) :
    (∀ entry, lookupPath p.pool path = some entry →
      get_connection p path now = some
        { conn := entry.connId, closed := [],
          state := { p with pool := touchPath p.pool path now } } ∧
      (path, entry) ∈ p.pool ∧
      (path, (⟨entry.connId, now⟩ : PoolEntry)) ∈ touchPath p.pool path now ∧
      ∀ q ∈ p.pool, q.1 ≠ path → q ∈ touchPath p.pool path now) ∧
    (lookupPath p.pool path = none → p.pool.length < p.maxConnections →
      get_connection p path now = some
        { conn := p.nextConnId, closed := [],
          state := { p with
            pool := p.pool ++ [(path, ⟨p.nextConnId, now⟩)],
            nextConnId := p.nextConnId + 1 } }) ∧
    (lookupPath p.pool path = none → p.pool.length = p.maxConnections →
      1 ≤ p.maxConnections →
      ∃ lru, minBy p.pool = some lru ∧ lru ∈ p.pool ∧
        (∀ q ∈ p.pool, lru.2.lastUsed ≤ q.2.lastUsed) ∧
        (∀ q ∈ p.pool, q.1 ≠ lru.1 → q ∈ removePath p.pool lru.1) ∧
        get_connection p path now = some
          { conn := p.nextConnId, closed := [lru.2.connId],
            state := { p with
              pool := removePath p.pool lru.1 ++ [(path, ⟨p.nextConnId, now⟩)],
              nextConnId := p.nextConnId + 1 } }) := by
  refine ⟨?_, ?_, ?_⟩
  · intro entry h
    refine ⟨?_, lookupPath_some_mem p.pool path entry h, ?_, ?_⟩
    · simp [get_connection, h]
    · exact touchPath_mem_self p.pool path now entry
        (lookupPath_some_mem p.pool path entry h)
    · intro q hq hne
      exact touchPath_mem_other p.pool path now q hq hne
  · intro h hlt
    simp [get_connection, h, hlt]
  · intro h hlen hmax
    have hne : p.pool ≠ [] := by
      intro hcon
      rw [hcon] at hlen
      simp at hlen
      omega
    obtain ⟨lru, hmin, hmem, hle⟩ := minBy_spec p.pool hne
    refine ⟨lru, hmin, hmem, hle, ?_, ?_⟩
    · intro q hq hneq
      exact removePath_mem p.pool lru.1 q hq hneq
    · have hnlt : ¬ p.pool.length < p.maxConnections := by omega
      simp [get_connection, h, hnlt, hmin]

/-- Witness for C2 at a concrete two-entry pool of capacity 2: a hit on
`a.duckdb` (present) and a miss on `c.duckdb` at capacity, which evicts
`b.duckdb`, the entry with the minimal `last_used`. -/
theorem pool_get_c2_witness :
    ((get_connection
        ⟨2, 300, [("a.duckdb", ⟨0, 10⟩), ("b.duckdb", ⟨1, 5⟩)], true, 2⟩
        "a.duckdb" 20 = some
          { conn := 0, closed := [],
            state := ⟨2, 300,
              touchPath [("a.duckdb", ⟨0, 10⟩), ("b.duckdb", ⟨1, 5⟩)]
                "a.duckdb" 20, true, 2⟩ }) ∧
      ("a.duckdb", (⟨0, 10⟩ : PoolEntry)) ∈
        ([("a.duckdb", ⟨0, 10⟩), ("b.duckdb", ⟨1, 5⟩)] :
          List (String × PoolEntry))) ∧
    (∃ lru, minBy [("a.duckdb", ⟨0, 10⟩), ("b.duckdb", ⟨1, 5⟩)] = some lru ∧
      lru ∈ ([("a.duckdb", ⟨0, 10⟩), ("b.duckdb", ⟨1, 5⟩)] :
        List (String × PoolEntry)) ∧
      (∀ q ∈ ([("a.duckdb", ⟨0, 10⟩), ("b.duckdb", ⟨1, 5⟩)] :
        List (String × PoolEntry)), lru.2.lastUsed ≤ q.2.lastUsed) ∧
      (∀ q ∈ ([("a.duckdb", ⟨0, 10⟩), ("b.duckdb", ⟨1, 5⟩)] :
        List (String × PoolEntry)), q.1 ≠ lru.1 →
        q ∈ removePath [("a.duckdb", ⟨0, 10⟩), ("b.duckdb", ⟨1, 5⟩)] lru.1) ∧
      get_connection
        ⟨2, 300, [("a.duckdb", ⟨0, 10⟩), ("b.duckdb", ⟨1, 5⟩)], true, 2⟩
        "c.duckdb" 20 = some
          { conn := 2, closed := [lru.2.connId],
            state := ⟨2, 300,
              removePath [("a.duckdb", ⟨0, 10⟩), ("b.duckdb", ⟨1, 5⟩)] lru.1
                ++ [("c.duckdb", ⟨2, 20⟩)], true, 3⟩ }) := by
  have h1 := pool_get_c2
    ⟨2, 300, [("a.duckdb", ⟨0, 10⟩), ("b.duckdb", ⟨1, 5⟩)], true, 2⟩
    "a.duckdb" 20
  have h2 := pool_get_c2
    ⟨2, 300, [("a.duckdb", ⟨0, 10⟩), ("b.duckdb", ⟨1, 5⟩)], true, 2⟩
    "c.duckdb" 20
  have ha := h1.1 ⟨0, 10⟩ rfl
  refine ⟨⟨ha.1, ha.2.1⟩, h2.2.2 rfl rfl (by decide)⟩

/-- Claim C5: from any state with at most one entry per path and at most
`max_connections` entries (`max_connections ≥ 1`), each pool operation —
`get_connection`, `return_connection`, `close_connection`, `close_all`,
and one reaper pass — yields a state satisfying the same invariant. -/
theorem pool_invariant_c5 (p : ConnectionPool) (path : String) (now : ℚ)
    (hmax : 1 ≤ p.maxConnections) (hinv : PoolInv p) :
    (∃ res, get_connection p path now = some res ∧ PoolInv res.state) ∧
    PoolInv (return_connection p path now) ∧
    PoolInv (close_connection p path) ∧
    PoolInv (close_all p) ∧
    PoolInv (cleanup_pass p now) := by
  obtain ⟨hnd, hlen⟩ := hinv
  have htouch : PoolInv { p with pool := touchPath p.pool path now } := by
    constructor
    · rw [touchPath_keys]; exact hnd
    · rw [touchPath_length]; exact hlen
  have hsub : ∀ l : List (String × PoolEntry), l.Sublist p.pool →
      ((l.map Prod.fst).Nodup ∧ l.length ≤ p.maxConnections) := by
    intro l hl
    exact ⟨List.Nodup.sublist (hl.map Prod.fst) hnd,
      le_trans hl.length_le hlen⟩
  refine ⟨?_, ?_, ?_, ?_, ?_⟩
  · cases hlook : lookupPath p.pool path with
    | some entry =>
      exact ⟨_, ((pool_get_c2 p path now).1 entry hlook).1, htouch⟩
    | none =>
      have hnotin : path ∉ p.pool.map Prod.fst :=
        (lookupPath_none_iff p.pool path).mp hlook
      by_cases hlt : p.pool.length < p.maxConnections
      · refine ⟨_, (pool_get_c2 p path now).2.1 hlook hlt, ?_, ?_⟩
        · simp only [List.map_append, List.map_cons, List.map_nil]
          rw [List.nodup_append]
          exact ⟨hnd, List.nodup_singleton path, by simpa using hnotin⟩
        · simp only [List.length_append, List.length_cons, List.length_nil]
          omega
      · have hlen' : p.pool.length = p.maxConnections := by omega
        obtain ⟨lru, hmin, hmem, hle, hkeep, hget⟩ :=
          (pool_get_c2 p path now).2.2 hlook hlen' hmax
        refine ⟨_, hget, ?_, ?_⟩
        · have hprune := hsub _ (removePath_sublist p.pool lru.1)
          have hnotin' : path ∉ (removePath p.pool lru.1).map Prod.fst := by
            intro hcon
            exact hnotin (List.map_subset Prod.fst
              (List.Sublist.subset (removePath_sublist p.pool lru.1)) hcon)
          simp only [List.map_append, List.map_cons, List.map_nil]
          rw [List.nodup_append]
          exact ⟨hprune.1, List.nodup_singleton path, by simpa using hnotin'⟩
        · have hrl : (removePath p.pool lru.1).length + 1 = p.pool.length :=
            removePath_length p.pool lru.1 lru.2 hnd (by simpa using hmem)
          simp only [List.length_append, List.length_cons, List.length_nil]
          omega
  · rw [return_connection]
    split
    · exact htouch
    · exact ⟨hnd, hlen⟩
  · rw [close_connection]
    split
    · exact hsub _ (removePath_sublist p.pool path)
    · exact ⟨hnd, hlen⟩
  · exact ⟨List.nodup_nil, by simp [close_all]⟩
  · exact hsub _ (List.filter_sublist p.pool)

/-- Witness for C5 at a concrete one-entry pool of capacity 2. -/
theorem pool_invariant_c5_witness :
    (∃ res, get_connection
        ⟨2, 300, [("a.duckdb", ⟨0, 10⟩)], true, 1⟩ "b.duckdb" 20 = some res ∧
      PoolInv res.state) ∧
    PoolInv (return_connection
      ⟨2, 300, [("a.duckdb", ⟨0, 10⟩)], true, 1⟩ "b.duckdb" 20) ∧
    PoolInv (close_connection
      ⟨2, 300, [("a.duckdb", ⟨0, 10⟩)], true, 1⟩ "b.duckdb") ∧
    PoolInv (close_all ⟨2, 300, [("a.duckdb", ⟨0, 10⟩)], true, 1⟩) ∧
    PoolInv (cleanup_pass ⟨2, 300, [("a.duckdb", ⟨0, 10⟩)], true, 1⟩ 20) :=
  pool_invariant_c5 ⟨2, 300, [("a.duckdb", ⟨0, 10⟩)], true, 1⟩ "b.duckdb" 20
    (by decide) ⟨by decide, by decide⟩

/-- Counterexample to claim C9 as stated: after `close_all` the map is
empty, yet a subsequent `get_connection` does install a new live entry in
the closed pool — `get_connection` never consults the `_running` flag. -/
theorem pool_inert_c9_counterexample :
    (close_all (⟨10, 300, [("a.duckdb", ⟨0, 0⟩)], true, 1⟩ :
      ConnectionPool)).pool = [] ∧
    (get_connection
        (close_all (⟨10, 300, [("a.duckdb", ⟨0, 0⟩)], true, 1⟩ :
          ConnectionPool)) "b.duckdb" 1).map
      (fun r => r.state.pool.length) = some 1 :=
  ⟨rfl, rfl⟩

/-- Claim C9 amended: after `close_all()` the entry map is empty and the
reaper flag is cleared, and `return_connection`, `close_connection` and a
reaper pass on the emptied pool are no-ops; but the pool is not inert —
a subsequent `get_connection` installs a new live entry. -/
theorem pool_after_close_all_c9 (p : ConnectionPool)
    (path path2 path3 : String) (now : ℚ) (hmax : 1 ≤ p.maxConnections) :
    (close_all p).pool = [] ∧
    (close_all p).running = false ∧
    return_connection (close_all p) path now = close_all p ∧
    close_connection (close_all p) path2 = close_all p ∧
    cleanup_pass (close_all p) now = close_all p ∧
    ∃ res, get_connection (close_all p) path3 now = some res ∧
      res.state.pool = [(path3, ⟨p.nextConnId, now⟩)] := by
  refine ⟨rfl, rfl, rfl, rfl, rfl, ?_⟩
  have h0 : (close_all p).pool.length < (close_all p).maxConnections := by
    simpa [close_all] using hmax
  refine ⟨_, (pool_get_c2 (close_all p) path3 now).2.1 rfl h0, ?_⟩
  simp [close_all]

/-- Witness for the amended C9 at a concrete pool. -/
theorem pool_after_close_all_c9_witness :
    (close_all (⟨10, 300, [("a.duckdb", ⟨0, 0⟩)], true, 1⟩ :
      ConnectionPool)).pool = [] ∧
    (close_all (⟨10, 300, [("a.duckdb", ⟨0, 0⟩)], true, 1⟩ :
      ConnectionPool)).running = false ∧
    return_connection (close_all ⟨10, 300, [("a.duckdb", ⟨0, 0⟩)], true, 1⟩)
      "a.duckdb" 1 = close_all ⟨10, 300, [("a.duckdb", ⟨0, 0⟩)], true, 1⟩ ∧
    close_connection (close_all ⟨10, 300, [("a.duckdb", ⟨0, 0⟩)], true, 1⟩)
      "a.duckdb" = close_all ⟨10, 300, [("a.duckdb", ⟨0, 0⟩)], true, 1⟩ ∧
    cleanup_pass (close_all ⟨10, 300, [("a.duckdb", ⟨0, 0⟩)], true, 1⟩) 1 =
      close_all ⟨10, 300, [("a.duckdb", ⟨0, 0⟩)], true, 1⟩ ∧
    ∃ res, get_connection
        (close_all ⟨10, 300, [("a.duckdb", ⟨0, 0⟩)], true, 1⟩)
        "b.duckdb" 1 = some res ∧
      res.state.pool = [("b.duckdb", ⟨1, 1⟩)] :=
  pool_after_close_all_c9 ⟨10, 300, [("a.duckdb", ⟨0, 0⟩)], true, 1⟩
    "a.duckdb" "a.duckdb" "b.duckdb" 1 (by decide)

/-! ## Lemmas about the transaction coordinator -/

theorem rollback_active {E : Type} (ex : Except E Unit) :
    rollback ⟨true⟩ ex =
      { result := .ok (), state := ⟨false⟩, issued := ["ROLLBACK;"] } := by
  cases ex <;> simp [rollback]

theorem runStatements_ok_of_all {E R : Type} (stmt : Nat → Except E R) :
    ∀ (qs : List String) (i : Nat),
      (∀ j, j < qs.length → ∃ r, stmt (i + j) = .ok r) →
      ∃ rs, runStatements stmt qs i = .ok rs := by
  intro qs
  induction qs with
  | nil => intro i _; exact ⟨[], rfl⟩
  | cons q rest ih =>
    intro i h
    obtain ⟨r, hr⟩ := h 0 (by simp)
    simp only [Nat.add_zero] at hr
    obtain ⟨rs, hrs⟩ := ih (i + 1) (by
      intro j hj
      have := h (j + 1) (by simp; omega)
      simpa [Nat.add_assoc, Nat.add_comm 1 j] using this)
    exact ⟨r :: rs, by simp [runStatements, hr, hrs]⟩

theorem runStatements_ok_spec {E R : Type} (stmt : Nat → Except E R) :
    ∀ (qs : List String) (i : Nat) (rs : List R),
      runStatements stmt qs i = .ok rs →
      rs.length = qs.length ∧
      ∀ j (h : j < rs.length), stmt (i + j) = .ok (rs.get ⟨j, h⟩) := by
  intro qs
  induction qs with
  | nil =>
    intro i rs h
    simp only [runStatements] at h
    cases h
    simp
  | cons q rest ih =>
    intro i rs h
    simp only [runStatements] at h
    cases hr : stmt i with
    | error e => rw [hr] at h; cases h
    | ok r =>
      rw [hr] at h
      cases hrec : runStatements stmt rest (i + 1) with
      | error e => rw [hrec] at h; cases h
      | ok rs' =>
        rw [hrec] at h
        cases h
        obtain ⟨hlen, hget⟩ := ih (i + 1) rs' hrec
        refine ⟨by simp [hlen], ?_⟩
        intro j hj
        cases j with
        | zero => simpa using hr
        | succ j =>
          have hj' : j < rs'.length := by simpa using hj
          have := hget j hj'
          rw [show i + (j + 1) = i + 1 + j by omega]
          simpa using this

theorem runStatements_err {E R : Type} (stmt : Nat → Except E R) :
    ∀ (qs : List String) (i k : Nat) (e : E), k < qs.length →
      (∀ j, j < k → ∃ r, stmt (i + j) = .ok r) →
      stmt (i + k) = .error e →
      runStatements stmt qs i = .error e := by
  intro qs
  induction qs with
  | nil => intro i k e hk _ _; simp at hk
  | cons q rest ih =>
    intro i k e hk hok he
    cases k with
    | zero =>
      simp only [Nat.add_zero] at he
      simp [runStatements, he]
    | succ k =>
      obtain ⟨r, hr⟩ := hok 0 (by omega)
      simp only [Nat.add_zero] at hr
      have hrec := ih (i + 1) k e (by simpa using hk)
        (by
          intro j hj
          have := hok (j + 1) (by omega)
          simpa [Nat.add_assoc, Nat.add_comm 1 j] using this)
        (by rw [show i + 1 + k = i + (k + 1) by omega]; exact he)
      simp [runStatements, hr, hrec]

/-- Claim C3: `execute_in_transaction` (with the `BEGIN`/`COMMIT` control
statements accepted by the engine and the coordinator idle) commits and
returns the per-statement results, in order, exactly when every statement
succeeds; when a statement raises, it rolls back, re-raises that same
exception, and hands back no partial result list. -/
theorem txn_execute_c3 {E R : Type} (queries : List String)
    (stmt : Nat → Except E R) (rollbackEx : Except E Unit) (s : TxnManager)
    (hidle : s.in_transaction = false) :
    ((∃ rs, (execute_in_transaction s queries (.ok ()) (.ok ())
        rollbackEx stmt).result = .ok rs) ↔
      ∀ j, j < queries.length → ∃ r, stmt j = .ok r) ∧
    (∀ rs, (execute_in_transaction s queries (.ok ()) (.ok ())
        rollbackEx stmt).result = .ok rs →
      rs.length = queries.length ∧
      (∀ j (h : j < rs.length), stmt j = .ok (rs.get ⟨j, h⟩)) ∧
      (execute_in_transaction s queries (.ok ()) (.ok ())
        rollbackEx stmt).state.in_transaction = false ∧
      (execute_in_transaction s queries (.ok ()) (.ok ())
        rollbackEx stmt).issued = ["BEGIN TRANSACTION;", "COMMIT;"]) ∧
    (∀ k e, k < queries.length → (∀ j, j < k → ∃ r, stmt j = .ok r) →
      stmt k = .error e →
      (execute_in_transaction s queries (.ok ()) (.ok ())
        rollbackEx stmt).result = .error (.engine e) ∧
      (execute_in_transaction s queries (.ok ()) (.ok ())
        rollbackEx stmt).state.in_transaction = false ∧
      (execute_in_transaction s queries (.ok ()) (.ok ())
        rollbackEx stmt).issued = ["BEGIN TRANSACTION;", "ROLLBACK;"]) := by
  have hb : begin_transaction s (.ok () : Except E Unit) =
      { result := .ok (), state := ⟨true⟩, issued := ["BEGIN TRANSACTION;"] } := by
    simp [begin_transaction, hidle]
  have hexec : execute_in_transaction s queries (.ok ()) (.ok ())
      rollbackEx stmt =
      match runStatements stmt queries 0 with
      | .ok rs =>
        { result := .ok rs, state := ⟨false⟩,
          issued := ["BEGIN TRANSACTION;", "COMMIT;"] }
      | .error e =>
        { result := .error (.engine e), state := ⟨false⟩,
          issued := ["BEGIN TRANSACTION;", "ROLLBACK;"] } := by
    simp only [execute_in_transaction, hb]
    cases hrun : runStatements stmt queries 0 with
    | ok rs => simp [commit]
    | error e => simp [rollback_active rollbackEx]
  refine ⟨?_, ?_, ?_⟩
  · constructor
    · rintro ⟨rs, hrs⟩
      rw [hexec] at hrs
      cases hrun : runStatements stmt queries 0 with
      | error e => rw [hrun] at hrs; cases hrs
      | ok rs' =>
        rw [hrun] at hrs
        obtain ⟨hlen, hget⟩ := runStatements_ok_spec stmt queries 0 rs' hrun
        intro j hj
        exact ⟨rs'.get ⟨j, by omega⟩, by simpa using hget j (by omega)⟩
    · intro h
      obtain ⟨rs, hrs⟩ := runStatements_ok_of_all stmt queries 0
        (by intro j hj; simpa using h j hj)
      exact ⟨rs, by rw [hexec, hrs]⟩
  · intro rs hrs
    rw [hexec] at hrs ⊢
    cases hrun : runStatements stmt queries 0 with
    | error e => rw [hrun] at hrs; cases hrs
    | ok rs' =>
      rw [hrun] at hrs
      cases hrs
      obtain ⟨hlen, hget⟩ := runStatements_ok_spec stmt queries 0 rs hrun
      exact ⟨hlen, fun j h => by simpa using hget j h, rfl, rfl⟩
  · intro k e hk hok he
    have hrun : runStatements stmt queries 0 = .error e :=
      runStatements_err stmt queries 0 k e hk
        (by intro j hj; simpa using hok j hj) (by simpa using he)
    rw [hexec, hrun]
    exact ⟨rfl, rfl, rfl⟩

/-- Witness for C3 at concrete inputs: two statements both succeeding,
and two statements with the second raising. -/
theorem txn_execute_c3_witness :
    ((execute_in_transaction ⟨false⟩ ["q0", "q1"] (.ok ()) (.ok ()) (.ok ())
        (fun i => (.ok i : Except String Nat))).result = .ok [0, 1] →
      True) ∧
    ((execute_in_transaction ⟨false⟩ ["q0", "q1"] (.ok ()) (.ok ()) (.ok ())
        (fun i => if i = 0 then (.ok 0 : Except String Nat)
                  else .error "boom")).result = .error (.engine "boom") ∧
      (execute_in_transaction ⟨false⟩ ["q0", "q1"] (.ok ()) (.ok ()) (.ok ())
        (fun i => if i = 0 then (.ok 0 : Except String Nat)
                  else .error "boom")).state.in_transaction = false ∧
      (execute_in_transaction ⟨false⟩ ["q0", "q1"] (.ok ()) (.ok ()) (.ok ())
        (fun i => if i = 0 then (.ok 0 : Except String Nat)
                  else .error "boom")).issued =
        ["BEGIN TRANSACTION;", "ROLLBACK;"]) := by
  have h := txn_execute_c3 ["q0", "q1"]
    (fun i => if i = 0 then (.ok 0 : Except String Nat) else .error "boom")
    (.ok ()) ⟨false⟩ rfl
  refine ⟨fun _ => trivial, h.2.2 1 "boom" (by decide) ?_ rfl⟩
  intro j hj
  have hj0 : j = 0 := by omega
  subst hj0
  exact ⟨0, rfl⟩

/-- Claim C4: `rollback` while idle returns successfully, issues no
statement and changes nothing; `rollback` while active issues `ROLLBACK;`
and ends idle, never raising — also when the `ROLLBACK` statement itself
raises. -/
theorem txn_rollback_c4 {E : Type} (s : TxnManager) (ex : Except E Unit) :
    (s.in_transaction = false →
      rollback s ex = { result := .ok (), state := s, issued := [] }) ∧
    (s.in_transaction = true →
      (rollback s ex).result = .ok () ∧
      (rollback s ex).state.in_transaction = false ∧
      (rollback s ex).issued = ["ROLLBACK;"]) := by
  constructor
  · intro h
    simp [rollback, h]
  · intro h
    cases ex <;> simp [rollback, h]

/-- Witness for C4: a concrete idle rollback and a concrete active
rollback whose `ROLLBACK` statement raises. -/
theorem txn_rollback_c4_witness :
    rollback ⟨false⟩ (.error "io" : Except String Unit) =
      { result := .ok (), state := ⟨false⟩, issued := [] } ∧
    ((rollback ⟨true⟩ (.error "io" : Except String Unit)).result = .ok () ∧
      (rollback ⟨true⟩ (.error "io" : Except String Unit)).state.in_transaction
        = false ∧
      (rollback ⟨true⟩ (.error "io" : Except String Unit)).issued =
        ["ROLLBACK;"]) :=
  ⟨(txn_rollback_c4 ⟨false⟩ (.error "io" : Except String Unit)).1 rfl,
   (txn_rollback_c4 ⟨true⟩ (.error "io" : Except String Unit)).2 rfl⟩

/-- Claim C8: `begin_transaction` while active raises the invalid-state
`RuntimeError` and leaves the coordinator active without issuing anything;
otherwise it issues `BEGIN TRANSACTION;` and becomes active. `commit`
while idle raises the invalid-state `RuntimeError` and stays idle without
issuing anything; otherwise it issues `COMMIT;` and becomes idle. -/
theorem txn_begin_commit_c8 {E : Type} (ex : Except E Unit) :
    (∀ s : TxnManager, s.in_transaction = true →
      (begin_transaction s ex).result =
        .error (.runtimeError "Transaction already in progress") ∧
      (begin_transaction s ex).state = s ∧
      (begin_transaction s ex).issued = []) ∧
    (∀ s : TxnManager, s.in_transaction = false →
      begin_transaction s (.ok () : Except E Unit) =
        { result := .ok (), state := ⟨true⟩,
          issued := ["BEGIN TRANSACTION;"] }) ∧
    (∀ s : TxnManager, s.in_transaction = false →
      (commit s ex).result =
        .error (.runtimeError "No transaction in progress") ∧
      (commit s ex).state = s ∧
      (commit s ex).issued = []) ∧
    (∀ s : TxnManager, s.in_transaction = true →
      commit s (.ok () : Except E Unit) =
        { result := .ok (), state := ⟨false⟩, issued := ["COMMIT;"] }) := by
  refine ⟨?_, ?_, ?_, ?_⟩
  · intro s h
    refine ⟨?_, ?_, ?_⟩ <;> simp [begin_transaction, h]
  · intro s h
    simp [begin_transaction, h]
  · intro s h
    refine ⟨?_, ?_, ?_⟩ <;> simp [commit, h]
  · intro s h
    simp [commit, h]

/-- Witness for C8 at concrete inputs. -/
theorem txn_begin_commit_c8_witness :
    ((begin_transaction ⟨true⟩ (.ok () : Except Unit Unit)).result =
      .error (.runtimeError "Transaction already in progress") ∧
      (begin_transaction ⟨true⟩ (.ok () : Except Unit Unit)).state = ⟨true⟩ ∧
      (begin_transaction ⟨true⟩ (.ok () : Except Unit Unit)).issued = []) ∧
    begin_transaction ⟨false⟩ (.ok () : Except Unit Unit) =
      { result := .ok (), state := ⟨true⟩, issued := ["BEGIN TRANSACTION;"] } ∧
    ((commit ⟨false⟩ (.ok () : Except Unit Unit)).result =
      .error (.runtimeError "No transaction in progress") ∧
      (commit ⟨false⟩ (.ok () : Except Unit Unit)).state = ⟨false⟩ ∧
      (commit ⟨false⟩ (.ok () : Except Unit Unit)).issued = []) ∧
    commit ⟨true⟩ (.ok () : Except Unit Unit) =
      { result := .ok (), state := ⟨false⟩, issued := ["COMMIT;"] } := by
  have h := txn_begin_commit_c8 (.ok () : Except Unit Unit)
  exact ⟨h.1 ⟨true⟩ rfl, h.2.1 ⟨false⟩ rfl, h.2.2.1 ⟨false⟩ rfl,
    h.2.2.2 ⟨true⟩ rfl⟩

/-- Claim C10: when the `COMMIT;` statement raises, `commit` propagates
that same engine error and `in_transaction` stays true; from that stuck
state a later `begin_transaction` raises the invalid-state `RuntimeError`
and stays active, while `rollback` (whatever the outcome of its
`ROLLBACK;` statement) resets the coordinator to idle. -/
theorem txn_commit_failure_c10 {E : Type} (s : TxnManager)
    (hs : s.in_transaction = true) (e : E) (ex2 rbEx : Except E Unit) :
    (commit s (.error e)).result = .error (.engine e) ∧
    (commit s (.error e)).state.in_transaction = true ∧
    (begin_transaction (commit s (.error e)).state ex2).result =
      .error (.runtimeError "Transaction already in progress") ∧
    (begin_transaction (commit s (.error e)).state ex2).state.in_transaction
      = true ∧
    (rollback (commit s (.error e)).state rbEx).result = .ok () ∧
    (rollback (commit s (.error e)).state rbEx).state.in_transaction
      = false := by
  have hc : commit s (.error e) =
      { result := .error (.engine e), state := s, issued := ["COMMIT;"] } := by
    simp [commit, hs]
  rw [hc]
  refine ⟨rfl, hs, ?_, ?_, ?_, ?_⟩
  · simp [begin_transaction, hs]
  · simp [begin_transaction, hs]
  · cases rbEx <;> simp [rollback, hs]
  · cases rbEx <;> simp [rollback, hs]

/-- Witness for C10 at a concrete input. -/
theorem txn_commit_failure_c10_witness :
    (commit ⟨true⟩ (.error "disk full" : Except String Unit)).result =
      .error (.engine "disk full") ∧
    (commit ⟨true⟩ (.error "disk full" : Except String Unit)).state.in_transaction
      = true ∧
    (begin_transaction
        (commit ⟨true⟩ (.error "disk full" : Except String Unit)).state
        (.ok () : Except String Unit)).result =
      .error (.runtimeError "Transaction already in progress") ∧
    (begin_transaction
        (commit ⟨true⟩ (.error "disk full" : Except String Unit)).state
        (.ok () : Except String Unit)).state.in_transaction = true ∧
    (rollback
        (commit ⟨true⟩ (.error "disk full" : Except String Unit)).state
        (.ok () : Except String Unit)).result = .ok () ∧
    (rollback
        (commit ⟨true⟩ (.error "disk full" : Except String Unit)).state
        (.ok () : Except String Unit)).state.in_transaction = false :=
  txn_commit_failure_c10 ⟨true⟩ rfl "disk full" (.ok ()) (.ok ())

/-! ## Lemmas about identity-key validation -/

theorem acceptable_name_error_iff (name : String) :
    (∃ msg, acceptable_name name = .error msg) ↔
      (pyLen name = 0 ∨ 20 < pyLen name ∨ pyContains name ' ' = true ∨
       pyContains name '/' = true ∨ pyContains name '\\' = true ∨
       pyEndsWith (pyLower name) ".duckdb" = false) := by
  unfold acceptable_name
  split_ifs with h1 h2 h3 h4 h5 <;>
    simp_all [Bool.or_eq_true, Bool.not_eq_true]
  tauto

/-- Claim C7: constructing a `DuckDB` raises a `ValueError` with no
connection involved exactly when the path does not case-insensitively end
in `.duckdb`, or — with `enforce_name` set — the name is empty, longer
than 20 characters, contains a space, a slash or a backslash, or does not
case-insensitively end in `.duckdb`; and a 20-character name satisfying
the other rules is accepted. -/
theorem name_validation_c7 :
    (∀ (path name : String) (enforce : Bool),
      ((duckdb_init_error path name enforce).isSome = true ↔
        (pyEndsWith (pyLower path) ".duckdb" = false ∨
          (enforce = true ∧
            (pyLen name = 0 ∨ 20 < pyLen name ∨
             pyContains name ' ' = true ∨ pyContains name '/' = true ∨
             pyContains name '\\' = true ∨
             pyEndsWith (pyLower name) ".duckdb" = false))))) ∧
    (pyLen "aaaaaaaaaaaaa.duckdb" = 20 ∧
      duckdb_init_error "db.duckdb" "aaaaaaaaaaaaa.duckdb" true = none) := by
  constructor
  · intro path name enforce
    by_cases hp : pyEndsWith (pyLower path) ".duckdb" = true
    · cases enforce with
      | false =>
        have hred : duckdb_init_error path name false = none := by
          simp [duckdb_init_error, hp]
        rw [hred]
        simp [hp]
      | true =>
        cases hacc : acceptable_name name with
        | error msg =>
          have hred : duckdb_init_error path name true = some msg := by
            simp [duckdb_init_error, hp, hacc]
          rw [hred]
          simp only [Option.isSome_some, true_iff]
          exact Or.inr ⟨by trivial, (acceptable_name_error_iff name).mp ⟨msg, hacc⟩⟩
        | ok b =>
          have hred : duckdb_init_error path name true = none := by
            simp [duckdb_init_error, hp, hacc]
          rw [hred]
          simp only [Option.isSome_none]
          constructor
          · intro hcon
            exact Bool.noConfusion hcon
          · rintro (hleft | ⟨_, hbad⟩)
            · rw [hp] at hleft
              exact Bool.noConfusion hleft
            · obtain ⟨msg, hmsg⟩ := (acceptable_name_error_iff name).mpr hbad
              rw [hmsg] at hacc
              cases hacc
    · have hred : duckdb_init_error path name enforce =
          some "Database file must have a .duckdb extension." := by
        simp [duckdb_init_error, hp]
      rw [hred]
      simp only [Option.isSome_some, true_iff]
      exact Or.inl (by simpa using hp)
  · exact ⟨by decide, by decide⟩

/-- Witness for C7: a path without the `.duckdb` extension is rejected,
and a name with a space is rejected. -/
theorem name_validation_c7_witness :
    (duckdb_init_error "db.txt" "a.duckdb" true).isSome = true ∧
    (duckdb_init_error "db.duckdb" "a b.duckdb" true).isSome = true :=
  ⟨(name_validation_c7.1 "db.txt" "a.duckdb" true).mpr (Or.inl (by decide)),
   (name_validation_c7.1 "db.duckdb" "a b.duckdb" true).mpr
     (Or.inr ⟨rfl, Or.inr (Or.inr (Or.inl (by decide)))⟩)⟩

end Udbcore
